import Mathlib

/-!
# Verification of the Tock CRC capsule (capsules/src/crc.rs)

This file gives a shallow embedding of the CRC system-call driver: the
per-application record (`App`), the driver state (`CrcState`), the dispatch
scan (`serve_waiting_apps`), the syscall entry points (`allow`, `subscribe`,
`command`) and the hardware completion path (`receive_result`).

Modelling choices:
* Application identifiers are indices into a fixed table of records
  (`CrcState.apps`); the kernel `Container` iterates records in store order
  and a lookup (`enter`) fails exactly when the identity is unknown, which the
  table models as an out-of-bounds index.  A failed lookup is mapped to
  `EINVAL` (the source maps `Error::NoSuchApp`/`AddressOutOfBounds` to
  `EINVAL` and `Error::OutOfMemory` to `ENOMEM`; the table model only
  produces the no-such-app failure).
* `Callback` and `AppSlice` are opaque handles, modelled as natural numbers.
* The hardware CRC unit is external.  Its `compute` result is an oracle
  `hw : Nat → ReturnCode`, indexed by the position of the record the scan is
  serving when it issues the call (each record is tried at most once per
  scan).  Calls into the hardware and scheduled callbacks are recorded in an
  `Event` trace.
-/

namespace CrcCapsule

/-- CRC algorithm tags, from `kernel::hil::crc::CrcAlg`. -/
inductive CrcAlg where
  | Crc32
  | Crc32C
  | Sam4L16
  | Sam4L32
  | Sam4L32C
deriving DecidableEq, Repr

/-- Syscall return codes, from `kernel::ReturnCode` (the variants this
driver uses, plus `FAIL`/`ESIZE` which the hardware oracle may produce). -/
inductive ReturnCode where
  | SuccessWithValue (value : Nat)
  | SUCCESS
  | FAIL
  | EBUSY
  | EINVAL
  | ESIZE
  | ENOMEM
  | ENOSUPPORT
deriving DecidableEq, Repr

/-- One application's record (`struct App` in the source): an optional
callback handle, an optional buffer handle, and, if `waiting` is `some`,
the algorithm of an outstanding request. -/
structure App where
  callback : Option Nat
  buffer : Option Nat
  waiting : Option CrcAlg
deriving DecidableEq, Repr

/-- Driver state (`struct Crc`): the table of application records and the
`serving_app` cell naming the application whose computation occupies the
hardware, if any. -/
structure CrcState where
  apps : List App
  serving_app : Option Nat
deriving DecidableEq, Repr

/-- Observable effects on the hardware unit and on applications:
`compute i alg` is a `crc_unit.compute` call issued for record `i`,
`disable` is `crc_unit.disable()`, and `schedule i status value third` is
`callback.schedule(status, value, third)` on record `i`'s callback. -/
inductive Event where
  | compute (i : Nat) (alg : CrcAlg)
  | disable
  | schedule (i : Nat) (status : ReturnCode) (value : Nat) (third : Nat)
deriving DecidableEq, Repr

/-- The condition under which the scan tries a record: `app.waiting` is
`some` and `app.buffer.take()` yields a buffer. -/
def eligible (a : App) : Bool :=
  a.waiting.isSome && a.buffer.isSome

/-- Result of the scan loop body of `serve_waiting_apps`: the updated
records, the value `serving_app` was set to (if any), the emitted events,
and the loop's `found` flag. -/
structure ScanResult where
  apps : List App
  serving : Option Nat
  events : List Event
  found : Bool
deriving Repr

/-- The `for app in self.apps.iter()` loop of `serve_waiting_apps`,
processing the records from position `i` on.  A record with a pending
request and a buffer has `compute` called for it: on `SUCCESS` the loop
records the server and stops (`found`/`break`); otherwise it schedules a
failure callback (if one is registered), clears `waiting`, restores the
buffer and continues with the next record. -/
def serveLoop (hw : Nat → ReturnCode) : Nat → List App → ScanResult
  | _, [] => ⟨[], none, [], false⟩
  | i, a :: rest =>
    match a.waiting, a.buffer with
    | some alg, some _ =>
      let r := hw i
      if r = ReturnCode.SUCCESS then
        ⟨a :: rest, some i, [Event.compute i alg], true⟩
      else
        let evs := Event.compute i alg ::
          (match a.callback with
           | some _ => [Event.schedule i r 0 0]
           | none => [])
        let res := serveLoop hw (i + 1) rest
        ⟨{ a with waiting := none } :: res.apps, res.serving, evs ++ res.events, res.found⟩
    | _, _ =>
      let res := serveLoop hw (i + 1) rest
      ⟨a :: res.apps, res.serving, res.events, res.found⟩

/-- `Crc::serve_waiting_apps`: a no-op if a computation is in progress;
otherwise scan for a waiting app and start its computation, and power the
unit down if no computation was started. -/
def serve_waiting_apps (hw : Nat → ReturnCode) (s : CrcState) : CrcState × List Event :=
  if s.serving_app.isSome then
    (s, [])
  else
    let res := serveLoop hw 0 s.apps
    if res.found then
      ({ apps := res.apps, serving_app := res.serving }, res.events)
    else
      ({ apps := res.apps, serving_app := none }, res.events ++ [Event.disable])

/-- `fn alg_from_user_int`. -/
def alg_from_user_int (i : Nat) : Option CrcAlg :=
  match i with
  | 0 => some CrcAlg.Crc32
  | 1 => some CrcAlg.Crc32C
  | 2 => some CrcAlg.Sam4L16
  | 3 => some CrcAlg.Sam4L32
  | 4 => some CrcAlg.Sam4L32C
  | _ => none

/-- `Driver::allow`: `allow_num` 0 stores the buffer in the app's record. -/
def allow (appid : Nat) (allow_num : Nat) (slice : Nat) (s : CrcState) :
    ReturnCode × CrcState :=
  match allow_num with
  | 0 =>
    match s.apps.get? appid with
    | some app =>
      (ReturnCode.SUCCESS,
       { s with apps := s.apps.set appid { app with buffer := some slice } })
    | none => (ReturnCode.EINVAL, s)
  | _ => (ReturnCode.ENOSUPPORT, s)

/-- `Driver::subscribe`: `subscribe_num` 0 stores the callback (identified
by handle `cb`, owned by app `cbApp = callback.app_id()`). -/
def subscribe (subscribe_num : Nat) (cbApp : Nat) (cb : Nat) (s : CrcState) :
    ReturnCode × CrcState :=
  match subscribe_num with
  | 0 =>
    match s.apps.get? cbApp with
    | some app =>
      (ReturnCode.SUCCESS,
       { s with apps := s.apps.set cbApp { app with callback := some cb } })
    | none => (ReturnCode.EINVAL, s)
  | _ => (ReturnCode.ENOSUPPORT, s)

/-- `Driver::command`: command 0 probes the driver, command 1 reports the
hardware version, command 2 submits a CRC request and, when the submission
succeeds, runs the dispatch scan. -/
def command (hw : Nat → ReturnCode) (version : Nat) (command_num : Nat)
    (algorithm : Nat) (appid : Nat) (s : CrcState) :
    ReturnCode × CrcState × List Event :=
  match command_num with
  | 0 => (ReturnCode.SUCCESS, s, [])
  | 1 => (ReturnCode.SuccessWithValue version, s, [])
  | 2 =>
    let rs : ReturnCode × CrcState :=
      match alg_from_user_int algorithm with
      | some alg =>
        match s.apps.get? appid with
        | some app =>
          if app.waiting.isSome then
            (ReturnCode.EBUSY, s)
          else if app.callback.isSome && app.buffer.isSome then
            (ReturnCode.SUCCESS,
             { s with apps := s.apps.set appid { app with waiting := some alg } })
          else
            (ReturnCode.EINVAL, s)
        | none => (ReturnCode.EINVAL, s)
      | none => (ReturnCode.EINVAL, s)
    if rs.1 = ReturnCode.SUCCESS then
      let se := serve_waiting_apps hw rs.2
      (rs.1, se.1, se.2)
    else
      (rs.1, rs.2, [])
  | _ => (ReturnCode.ENOSUPPORT, s, [])

/-- `hil::crc::Client::receive_result`: if an app is being served, deliver
the result through its callback (if registered) and clear its `waiting`
field, absorbing a failed lookup; then clear `serving_app` and re-run the
dispatch scan.  An orphaned result (`serving_app = none`) is ignored. -/
def receive_result (hw : Nat → ReturnCode) (result : Nat) (s : CrcState) :
    CrcState × List Event :=
  match s.serving_app with
  | some appid =>
    let se1 : CrcState × List Event :=
      match s.apps.get? appid with
      | some app =>
        let evs : List Event :=
          match app.callback with
          | some _ => [Event.schedule appid ReturnCode.SUCCESS result 0]
          | none => []
        ({ s with apps := s.apps.set appid { app with waiting := none } }, evs)
      | none => (s, [])
    let s2 : CrcState := { se1.1 with serving_app := none }
    let se2 := serve_waiting_apps hw s2
    (se2.1, se1.2 ++ se2.2)
  | none => (s, [])

/-- The public interface: one operation of any client or of the hardware
completion path.  Each `command`/completion carries its own hardware
oracle, so reachability quantifies over all hardware accept/reject
behaviours. -/
inductive Op where
  | opAllow (appid allow_num slice : Nat)
  | opSubscribe (subscribe_num cbApp cb : Nat)
  | opCommand (hw : Nat → ReturnCode) (version command_num algorithm appid : Nat)
  | opReceive (hw : Nat → ReturnCode) (result : Nat)

/-- The state component of one interface operation. -/
def applyOp : Op → CrcState → CrcState
  | Op.opAllow a n sl, s => (allow a n sl s).2
  | Op.opSubscribe n ca cb, s => (subscribe n ca cb s).2
  | Op.opCommand hw v n alg a, s => (command hw v n alg a s).2.1
  | Op.opReceive hw r, s => (receive_result hw r s).1

/-- The initial state: `n` default (`#[derive(Default)]`) records, hardware
idle. -/
def initState (n : Nat) : CrcState :=
  { apps := List.replicate n { callback := none, buffer := none, waiting := none },
    serving_app := none }

/-- States reachable through any interleaving of interface operations. -/
inductive Reachable (n : Nat) : CrcState → Prop where
  | init : Reachable n (initState n)
  | step (op : Op) {s : CrcState} : Reachable n s → Reachable n (applyOp op s)

/-! ## Spec-side description of the scan

`firstAccept` states §4.3 of the spec in its own words: scanning in store
order from absolute position `i`, the first record that has a pending
request and a buffer present and whose hardware start is accepted.  The
lemmas below compare the code's scan loop against it. -/

/-- Spec §4.3 in its own words: the position of the first record (from
position `i` on) with a pending request and a buffer whose hardware start
is accepted. -/
def firstAccept (hw : Nat → ReturnCode) : Nat → List App → Option Nat
  | _, [] => none
  | i, a :: rest =>
    if eligible a = true ∧ hw i = ReturnCode.SUCCESS then some i
    else firstAccept hw (i + 1) rest

/-- Recognizer for a `compute` call the hardware oracle accepts. -/
def isAcceptedCompute (hw : Nat → ReturnCode) : Event → Bool
  | Event.compute i _ => hw i == ReturnCode.SUCCESS
  | _ => false

/-- Invariant for claim C1: if an app is being served (`serving_app` is
`some`), that app's record exists and has an outstanding request. -/
def servingInFlight (s : CrcState) : Bool :=
  match s.serving_app with
  | some c =>
    match s.apps.get? c with
    | some a => a.waiting.isSome
    | none => false
  | none => true

/-- Invariant for claim C9: any record with an outstanding request has both
a buffer and a callback registered. -/
def waitingImpliesRegistered (s : CrcState) : Bool :=
  s.apps.all fun a => !a.waiting.isSome || (a.buffer.isSome && a.callback.isSome)

/-- Modelled from the spec: the numeric value a client observes for a
successful probe.  The kernel crate that encodes `ReturnCode` outcomes into
userspace integers is not part of this tree; spec §6 ("Probe (command 0):
returns a non-zero presence indicator") fixes only that the indicator
returned by a present driver's probe is non-zero. -/
def presence_indicator : Nat := 1

theorem serveLoop_length (hw : Nat → ReturnCode) (i : Nat) (l : List App) :
    (serveLoop hw i l).apps.length = l.length := by
  induction l generalizing i with
  | nil => rfl
  | cons a rest ih =>
    obtain ⟨cb, buf, w⟩ := a
    rcases w with _ | alg <;> rcases buf with _ | b <;>
      simp only [serveLoop, List.length_cons, ih]
    by_cases hr : hw i = ReturnCode.SUCCESS <;>
      simp [hr, ih]

theorem serveLoop_serving (hw : Nat → ReturnCode) (i : Nat) (l : List App) :
    (serveLoop hw i l).serving = firstAccept hw i l := by
  induction l generalizing i with
  | nil => rfl
  | cons a rest ih =>
    obtain ⟨cb, buf, w⟩ := a
    rcases w with _ | alg
    · rcases buf with _ | b <;> simp [serveLoop, firstAccept, eligible, ih]
    · rcases buf with _ | b
      · simp [serveLoop, firstAccept, eligible, ih]
      · by_cases hr : hw i = ReturnCode.SUCCESS <;>
          simp [serveLoop, firstAccept, eligible, hr, ih]

theorem serveLoop_found (hw : Nat → ReturnCode) (i : Nat) (l : List App) :
    (serveLoop hw i l).found = (firstAccept hw i l).isSome := by
  induction l generalizing i with
  | nil => rfl
  | cons a rest ih =>
    obtain ⟨cb, buf, w⟩ := a
    rcases w with _ | alg
    · rcases buf with _ | b <;> simp [serveLoop, firstAccept, eligible, ih]
    · rcases buf with _ | b
      · simp [serveLoop, firstAccept, eligible, ih]
      · by_cases hr : hw i = ReturnCode.SUCCESS <;>
          simp [serveLoop, firstAccept, eligible, hr, ih]

theorem firstAccept_ge (hw : Nat → ReturnCode) (i j : Nat) (l : List App)
    (h : firstAccept hw i l = some j) : i ≤ j := by
  induction l generalizing i with
  | nil => simp [firstAccept] at h
  | cons a rest ih =>
    simp only [firstAccept] at h
    split at h
    · exact Nat.le_of_eq (Option.some.inj h)
    · have := ih (i + 1) h
      omega

theorem firstAccept_spec (hw : Nat → ReturnCode) (i j : Nat) (l : List App)
    (h : firstAccept hw i l = some j) :
    ∃ k a, j = i + k ∧ l.get? k = some a ∧ eligible a = true ∧
      hw j = ReturnCode.SUCCESS := by
  induction l generalizing i with
  | nil => simp [firstAccept] at h
  | cons a rest ih =>
    simp only [firstAccept] at h
    split at h
    · rename_i hcond
      obtain rfl : i = j := Option.some.inj h
      exact ⟨0, a, by omega, rfl, hcond.1, hcond.2⟩
    · obtain ⟨k, a', hk, hget, hel, hacc⟩ := ih (i + 1) h
      exact ⟨k + 1, a', by omega, by simpa using hget, hel, hacc⟩

theorem serveLoop_apps_of_le (hw : Nat → ReturnCode) (i k : Nat) (l : List App)
    (h : firstAccept hw i l = some (i + k)) :
    ∀ m, k ≤ m → (serveLoop hw i l).apps.get? m = l.get? m := by
  induction l generalizing i k with
  | nil => simp [firstAccept] at h
  | cons a rest ih =>
    intro m hm
    obtain ⟨cb, buf, w⟩ := a
    rcases w with _ | alg
    · have h' : firstAccept hw (i + 1) rest = some (i + k) := by
        simpa [firstAccept, eligible] using h
      have hk : 1 ≤ k := by have := firstAccept_ge hw (i + 1) (i + k) rest h'; omega
      obtain ⟨m', rfl⟩ : ∃ m', m = m' + 1 := ⟨m - 1, by omega⟩
      have h'' : firstAccept hw (i + 1) rest = some ((i + 1) + (k - 1)) := by
        rw [h']; congr 1; omega
      simp only [serveLoop, List.get?_cons_succ]
      exact ih (i + 1) (k - 1) h'' m' (by omega)
    · rcases buf with _ | b
      · have h' : firstAccept hw (i + 1) rest = some (i + k) := by
          simpa [firstAccept, eligible] using h
        have hk : 1 ≤ k := by have := firstAccept_ge hw (i + 1) (i + k) rest h'; omega
        obtain ⟨m', rfl⟩ : ∃ m', m = m' + 1 := ⟨m - 1, by omega⟩
        have h'' : firstAccept hw (i + 1) rest = some ((i + 1) + (k - 1)) := by
          rw [h']; congr 1; omega
        simp only [serveLoop, List.get?_cons_succ]
        exact ih (i + 1) (k - 1) h'' m' (by omega)
      · by_cases hr : hw i = ReturnCode.SUCCESS
        · simp [serveLoop, hr]
        · have h' : firstAccept hw (i + 1) rest = some (i + k) := by
            simpa [firstAccept, eligible, hr] using h
          have hk : 1 ≤ k := by
            have := firstAccept_ge hw (i + 1) (i + k) rest h'; omega
          obtain ⟨m', rfl⟩ : ∃ m', m = m' + 1 := ⟨m - 1, by omega⟩
          have h'' : firstAccept hw (i + 1) rest = some ((i + 1) + (k - 1)) := by
            rw [h']; congr 1; omega
          simp only [serveLoop, hr, if_neg, not_false_iff, List.get?_cons_succ]
          exact ih (i + 1) (k - 1) h'' m' (by omega)

theorem serveLoop_mem (hw : Nat → ReturnCode) (i : Nat) (l : List App) :
    ∀ a' ∈ (serveLoop hw i l).apps,
      ∃ a, a ∈ l ∧ (a' = a ∨ a' = { a with waiting := none }) := by
  induction l generalizing i with
  | nil => intro a' h; simp [serveLoop] at h
  | cons a rest ih =>
    intro a' h
    obtain ⟨cb, buf, w⟩ := a
    rcases w with _ | alg
    · simp only [serveLoop] at h
      rcases List.mem_cons.mp h with h | h
      · exact ⟨_, List.mem_cons_self _ _, Or.inl h⟩
      · obtain ⟨a0, ha0, hcase⟩ := ih (i + 1) a' h
        exact ⟨a0, List.mem_cons_of_mem _ ha0, hcase⟩
    · rcases buf with _ | b
      · simp only [serveLoop] at h
        rcases List.mem_cons.mp h with h | h
        · exact ⟨_, List.mem_cons_self _ _, Or.inl h⟩
        · obtain ⟨a0, ha0, hcase⟩ := ih (i + 1) a' h
          exact ⟨a0, List.mem_cons_of_mem _ ha0, hcase⟩
      · by_cases hr : hw i = ReturnCode.SUCCESS
        · simp only [serveLoop, hr, if_pos] at h
          exact ⟨a', h, Or.inl rfl⟩
        · simp only [serveLoop, hr, if_neg, not_false_iff] at h
          rcases List.mem_cons.mp h with h | h
          · exact ⟨_, List.mem_cons_self _ _, Or.inr h⟩
          · obtain ⟨a0, ha0, hcase⟩ := ih (i + 1) a' h
            exact ⟨a0, List.mem_cons_of_mem _ ha0, hcase⟩

theorem serveLoop_rejected (hw : Nat → ReturnCode) (i : Nat) (l : List App) :
    ∀ k a, l.get? k = some a → eligible a = true →
    hw (i + k) ≠ ReturnCode.SUCCESS →
    (∀ m, m < k → ∀ b, l.get? m = some b → eligible b = true →
        hw (i + m) ≠ ReturnCode.SUCCESS) →
    (serveLoop hw i l).apps.get? k = some { a with waiting := none } ∧
    (∀ alg, a.waiting = some alg →
        Event.compute (i + k) alg ∈ (serveLoop hw i l).events) ∧
    (a.callback.isSome = true →
        Event.schedule (i + k) (hw (i + k)) 0 0 ∈ (serveLoop hw i l).events) := by
  induction l generalizing i with
  | nil => intro k a hget; simp at hget
  | cons hd rest ih =>
    intro k a hget hel hrej hprev
    cases k with
    | zero =>
      obtain rfl : hd = a := by simpa using hget
      obtain ⟨cb, buf, w⟩ := hd
      rcases w with _ | alg
      · simp [eligible] at hel
      rcases buf with _ | b
      · simp [eligible] at hel
      have hr : ¬hw i = ReturnCode.SUCCESS := by simpa using hrej
      refine ⟨?_, ?_, ?_⟩
      · simp [serveLoop, hr]
      · intro alg' halg'
        obtain rfl : alg = alg' := by simpa using halg'
        simp [serveLoop, hr]
      · intro hcb
        rcases cb with _ | c
        · simp at hcb
        · simp [serveLoop, hr]
    | succ m =>
      have hget' : rest.get? m = some a := by simpa using hget
      have hrej' : hw ((i + 1) + m) ≠ ReturnCode.SUCCESS := by
        have : (i + 1) + m = i + (m + 1) := by omega
        rw [this]; exact hrej
      have hprev' : ∀ m', m' < m → ∀ b, rest.get? m' = some b →
          eligible b = true → hw ((i + 1) + m') ≠ ReturnCode.SUCCESS := by
        intro m' hm' b hb helb
        have : (i + 1) + m' = i + (m' + 1) := by omega
        rw [this]
        exact hprev (m' + 1) (by omega) b (by simpa using hb) helb
      obtain ⟨cb, buf, w⟩ := hd
      have key := ih (i + 1) m a hget' hel hrej' hprev'
      have harith : (i + 1) + m = i + (m + 1) := by omega
      rcases w with _ | alg
      · refine ⟨?_, ?_, ?_⟩
        · simpa [serveLoop] using key.1
        · intro alg' halg'
          have := key.2.1 alg' halg'
          rw [harith] at this
          simp only [serveLoop]
          exact this
        · intro hcb
          have := key.2.2 hcb
          rw [harith] at this
          simp only [serveLoop]
          exact this
      · rcases buf with _ | b
        · refine ⟨?_, ?_, ?_⟩
          · simpa [serveLoop] using key.1
          · intro alg' halg'
            have := key.2.1 alg' halg'
            rw [harith] at this
            simp only [serveLoop]
            exact this
          · intro hcb
            have := key.2.2 hcb
            rw [harith] at this
            simp only [serveLoop]
            exact this
        · have hr : ¬hw i = ReturnCode.SUCCESS := by
            have := hprev 0 (by omega) { callback := cb, buffer := some b, waiting := some alg }
              (by simp) (by simp [eligible])
            simpa using this
          refine ⟨?_, ?_, ?_⟩
          · have := key.1
            simp only [serveLoop, hr, if_neg, not_false_iff, List.get?_cons_succ]
            exact this
          · intro alg' halg'
            have := key.2.1 alg' halg'
            rw [harith] at this
            simp only [serveLoop, hr, if_neg, not_false_iff]
            exact List.mem_append_right _ this
          · intro hcb
            have := key.2.2 hcb
            rw [harith] at this
            simp only [serveLoop, hr, if_neg, not_false_iff]
            exact List.mem_append_right _ this

theorem firstAccept_eq_of (hw : Nat → ReturnCode) (i k : Nat) (a : App)
    (l : List App) (hget : l.get? k = some a) (hel : eligible a = true)
    (hacc : hw (i + k) = ReturnCode.SUCCESS)
    (hprev : ∀ m, m < k → ∀ b, l.get? m = some b → eligible b = true →
        hw (i + m) ≠ ReturnCode.SUCCESS) :
    firstAccept hw i l = some (i + k) := by
  induction l generalizing i k with
  | nil => simp at hget
  | cons hd rest ih =>
    cases k with
    | zero =>
      obtain rfl : hd = a := by simpa using hget
      simp [firstAccept, hel, by simpa using hacc]
    | succ m =>
      have hget' : rest.get? m = some a := by simpa using hget
      have hacc' : hw ((i + 1) + m) = ReturnCode.SUCCESS := by
        have : (i + 1) + m = i + (m + 1) := by omega
        rw [this]; exact hacc
      have hprev' : ∀ m', m' < m → ∀ b, rest.get? m' = some b →
          eligible b = true → hw ((i + 1) + m') ≠ ReturnCode.SUCCESS := by
        intro m' hm' b hb helb
        have : (i + 1) + m' = i + (m' + 1) := by omega
        rw [this]
        exact hprev (m' + 1) (by omega) b (by simpa using hb) helb
      have harith : (i + 1) + m = i + (m + 1) := by omega
      have tail := ih (i + 1) m hget' hacc' hprev'
      rw [harith] at tail
      by_cases helhd : eligible hd = true
      · have hr : hw i ≠ ReturnCode.SUCCESS := by
          have := hprev 0 (by omega) hd (by simp) helhd
          simpa using this
        simp [firstAccept, hr, tail]
      · simp [firstAccept, helhd, tail]

theorem firstAccept_none_of_reject (hw : Nat → ReturnCode) (i : Nat)
    (l : List App) (h : ∀ j, hw j ≠ ReturnCode.SUCCESS) :
    firstAccept hw i l = none := by
  induction l generalizing i with
  | nil => rfl
  | cons a rest ih => simp [firstAccept, h i, ih]

theorem serveLoop_no_disable (hw : Nat → ReturnCode) (i : Nat) (l : List App) :
    Event.disable ∉ (serveLoop hw i l).events := by
  induction l generalizing i with
  | nil => simp [serveLoop]
  | cons a rest ih =>
    obtain ⟨cb, buf, w⟩ := a
    rcases w with _ | alg
    · simpa [serveLoop] using ih (i + 1)
    rcases buf with _ | b
    · simpa [serveLoop] using ih (i + 1)
    by_cases hr : hw i = ReturnCode.SUCCESS
    · simp [serveLoop, hr]
    · rcases cb with _ | c <;> simp [serveLoop, hr, ih (i + 1)]

theorem serveLoop_accepted_count (hw : Nat → ReturnCode) (i : Nat) (l : List App) :
    ((serveLoop hw i l).events.filter (isAcceptedCompute hw)).length =
      (if (serveLoop hw i l).found = true then 1 else 0) := by
  induction l generalizing i with
  | nil => rfl
  | cons a rest ih =>
    obtain ⟨cb, buf, w⟩ := a
    rcases w with _ | alg
    · simpa [serveLoop] using ih (i + 1)
    rcases buf with _ | b
    · simpa [serveLoop] using ih (i + 1)
    by_cases hr : hw i = ReturnCode.SUCCESS
    · simp [serveLoop, hr, isAcceptedCompute]
    · have hbeq : (hw i == ReturnCode.SUCCESS) = false := by
        simpa using hr
      rcases cb with _ | c <;>
        simp [serveLoop, hr, isAcceptedCompute, hbeq, List.filter_append, ih (i + 1)]

theorem serve_noop (hw : Nat → ReturnCode) (s : CrcState)
    (h : s.serving_app.isSome = true) : serve_waiting_apps hw s = (s, []) := by
  simp [serve_waiting_apps, h]

theorem serve_apps_eq (hw : Nat → ReturnCode) (s : CrcState)
    (h : s.serving_app = none) :
    (serve_waiting_apps hw s).1.apps = (serveLoop hw 0 s.apps).apps := by
  simp only [serve_waiting_apps, h, Option.isSome_none, Bool.false_eq_true,
    if_false]
  by_cases hf : (serveLoop hw 0 s.apps).found = true <;> simp [hf]

theorem serve_serving_eq (hw : Nat → ReturnCode) (s : CrcState)
    (h : s.serving_app = none) :
    (serve_waiting_apps hw s).1.serving_app = firstAccept hw 0 s.apps := by
  simp only [serve_waiting_apps, h, Option.isSome_none, Bool.false_eq_true,
    if_false]
  by_cases hf : (serveLoop hw 0 s.apps).found = true
  · simp [hf, serveLoop_serving]
  · cases hfa : firstAccept hw 0 s.apps with
    | none => simp [hf]
    | some j =>
      exfalso
      have hfd := serveLoop_found hw 0 s.apps
      rw [hfa] at hfd
      simp only [Option.isSome_some] at hfd
      exact hf hfd

theorem serve_events_mem (hw : Nat → ReturnCode) (s : CrcState)
    (h : s.serving_app = none) :
    ∀ e ∈ (serveLoop hw 0 s.apps).events, e ∈ (serve_waiting_apps hw s).2 := by
  intro e he
  simp only [serve_waiting_apps, h, Option.isSome_none, Bool.false_eq_true,
    if_false]
  by_cases hf : (serveLoop hw 0 s.apps).found = true
  · simpa [hf] using he
  · simp only [hf, Bool.false_eq_true, if_false]
    exact List.mem_append_left _ he

theorem serve_disable (hw : Nat → ReturnCode) (s : CrcState)
    (h : s.serving_app = none)
    (hn : (serve_waiting_apps hw s).1.serving_app = none) :
    Event.disable ∈ (serve_waiting_apps hw s).2 := by
  have hfa : firstAccept hw 0 s.apps = none := by
    rw [← serve_serving_eq hw s h]; exact hn
  have hf : (serveLoop hw 0 s.apps).found = false := by
    rw [serveLoop_found, hfa]; rfl
  simp [serve_waiting_apps, h, hf]

theorem serve_accepted_le_one (hw : Nat → ReturnCode) (s : CrcState) :
    ((serve_waiting_apps hw s).2.filter (isAcceptedCompute hw)).length ≤ 1 := by
  by_cases h : s.serving_app.isSome = true
  · simp [serve_noop hw s h]
  · have hnone : s.serving_app = none := by
      cases hs : s.serving_app
      · rfl
      · rw [hs] at h; simp at h
    simp only [serve_waiting_apps, hnone, Option.isSome_none, Bool.false_eq_true,
      if_false]
    by_cases hf : (serveLoop hw 0 s.apps).found = true <;>
      simp [hf, List.filter_append, serveLoop_accepted_count, isAcceptedCompute]

theorem serve_new_server_accepted (hw : Nat → ReturnCode) (s : CrcState)
    (j : Nat) (h : s.serving_app = none)
    (hj : (serve_waiting_apps hw s).1.serving_app = some j) :
    hw j = ReturnCode.SUCCESS := by
  rw [serve_serving_eq hw s h] at hj
  obtain ⟨k, a, rfl, hget, hel, hacc⟩ := firstAccept_spec hw 0 _ s.apps hj
  exact hacc

/-! ## Invariants -/

theorem servingInFlight_of_none {s : CrcState} (h : s.serving_app = none) :
    servingInFlight s = true := by
  simp [servingInFlight, h]

theorem servingInFlight_some {s : CrcState} {c : Nat}
    (h : s.serving_app = some c) (hfl : servingInFlight s = true) :
    ∃ a, s.apps.get? c = some a ∧ a.waiting.isSome = true := by
  simp only [servingInFlight, h] at hfl
  cases hget : s.apps.get? c with
  | none => rw [hget] at hfl; exact absurd hfl (by simp)
  | some a => rw [hget] at hfl; exact ⟨a, rfl, hfl⟩

theorem servingInFlight_set {s : CrcState} {i : Nat} {app : App} (a' : App)
    (hget : s.apps.get? i = some app)
    (hpres : app.waiting.isSome = true → a'.waiting.isSome = true)
    (h : servingInFlight s = true) :
    servingInFlight { s with apps := s.apps.set i a' } = true := by
  cases hs : s.serving_app with
  | none => simp [servingInFlight, hs]
  | some c =>
    obtain ⟨b, hb, hbw⟩ := servingInFlight_some hs h
    unfold servingInFlight
    simp only [hs]
    by_cases hc : c = i
    · subst hc
      obtain rfl : b = app := by rw [hb] at hget; exact Option.some.inj hget
      have hlt : c < s.apps.length := by
        by_contra hge
        rw [List.get?_eq_none.mpr (by omega)] at hb
        exact Option.noConfusion hb
      rw [List.get?_set_eq_of_lt _ hlt]
      exact hpres hbw
    · rw [List.get?_set_ne _ _ (fun he => hc he.symm), hb]
      exact hbw

theorem waitingReg_get {s : CrcState} {i : Nat} {app : App}
    (h : waitingImpliesRegistered s = true) (hget : s.apps.get? i = some app)
    (hws : app.waiting.isSome = true) :
    app.buffer.isSome = true ∧ app.callback.isSome = true := by
  have hmem : app ∈ s.apps := List.get?_mem hget
  have hall := (List.all_eq_true.mp h) app hmem
  rw [hws] at hall
  simpa using hall

theorem waitingReg_set {s : CrcState} (i : Nat) (a' : App)
    (ha' : a'.waiting.isSome = true →
      a'.buffer.isSome = true ∧ a'.callback.isSome = true)
    (h : waitingImpliesRegistered s = true) :
    waitingImpliesRegistered { s with apps := s.apps.set i a' } = true := by
  simp only [waitingImpliesRegistered, List.all_eq_true] at h ⊢
  intro b hb
  rcases List.mem_or_eq_of_mem_set hb with hb | rfl
  · exact h b hb
  · by_cases hws : b.waiting.isSome = true
    · simp [(ha' hws).1, (ha' hws).2]
    · simp only [Bool.not_eq_true] at hws
      simp [hws]

theorem servingInFlight_scan (hw : Nat → ReturnCode) (s : CrcState)
    (h : s.serving_app = none) :
    servingInFlight (serve_waiting_apps hw s).1 = true := by
  cases hfa : firstAccept hw 0 s.apps with
  | none =>
    have hserv := serve_serving_eq hw s h
    rw [hfa] at hserv
    exact servingInFlight_of_none hserv
  | some j =>
    have hserv := serve_serving_eq hw s h
    rw [hfa] at hserv
    obtain ⟨k, a, hj, hget, hel, hacc⟩ := firstAccept_spec hw 0 j s.apps hfa
    obtain rfl : j = k := by omega
    have hfa' : firstAccept hw 0 s.apps = some (0 + j) := by
      rw [Nat.zero_add]; exact hfa
    have happ := serveLoop_apps_of_le hw 0 j s.apps hfa' j (Nat.le_refl j)
    have happ' : (serve_waiting_apps hw s).1.apps.get? j = s.apps.get? j := by
      rw [serve_apps_eq hw s h]; exact happ
    have hwk : a.waiting.isSome = true := by
      simp [eligible] at hel; exact hel.1
    unfold servingInFlight
    simp only [hserv, happ', hget]
    exact hwk

theorem waitingReg_scan (hw : Nat → ReturnCode) (s : CrcState)
    (h : waitingImpliesRegistered s = true) :
    waitingImpliesRegistered (serve_waiting_apps hw s).1 = true := by
  by_cases hs : s.serving_app.isSome = true
  · rw [serve_noop hw s hs]; exact h
  · have hnone : s.serving_app = none := by
      cases hv : s.serving_app
      · rfl
      · rw [hv] at hs; simp at hs
    simp only [waitingImpliesRegistered, List.all_eq_true] at h ⊢
    intro b hb
    rw [serve_apps_eq hw s hnone] at hb
    obtain ⟨a, ha, hcase⟩ := serveLoop_mem hw 0 s.apps b hb
    rcases hcase with rfl | rfl
    · exact h b ha
    · simp

theorem getElem?_of_get? {l : List App} {i : Nat} {o : Option App}
    (h : l.get? i = o) : l[i]? = o := by
  rw [← List.get?_eq_getElem?]
  exact h

theorem servingInFlight_allow (a n sl : Nat) (s : CrcState)
    (h : servingInFlight s = true) :
    servingInFlight (allow a n sl s).2 = true := by
  cases n with
  | zero =>
    cases hget : s.apps.get? a with
    | none => simpa [allow, getElem?_of_get? hget] using h
    | some app =>
      have hset := servingInFlight_set { app with buffer := some sl }
        hget (fun hws => hws) h
      simpa [allow, getElem?_of_get? hget] using hset
  | succ m => simpa [allow] using h

theorem servingInFlight_subscribe (n ca cb : Nat) (s : CrcState)
    (h : servingInFlight s = true) :
    servingInFlight (subscribe n ca cb s).2 = true := by
  cases n with
  | zero =>
    cases hget : s.apps.get? ca with
    | none => simpa [subscribe, getElem?_of_get? hget] using h
    | some app =>
      have hset := servingInFlight_set { app with callback := some cb }
        hget (fun hws => hws) h
      simpa [subscribe, getElem?_of_get? hget] using hset
  | succ m => simpa [subscribe] using h

theorem servingInFlight_serve (hw : Nat → ReturnCode) (s : CrcState)
    (h : servingInFlight s = true) :
    servingInFlight (serve_waiting_apps hw s).1 = true := by
  by_cases hsome : s.serving_app.isSome = true
  · have := serve_noop hw s hsome
    rw [this]
    exact h
  · have hnone : s.serving_app = none := by
      cases hv : s.serving_app
      · rfl
      · rw [hv] at hsome; simp at hsome
    exact servingInFlight_scan hw s hnone

theorem servingInFlight_command (hw : Nat → ReturnCode) (v n alg a : Nat)
    (s : CrcState) (h : servingInFlight s = true) :
    servingInFlight (command hw v n alg a s).2.1 = true := by
  rcases n with _ | _ | _ | m
  · simpa [command] using h
  · simpa [command] using h
  · cases halg : alg_from_user_int alg with
    | none => simpa [command, halg] using h
    | some al =>
      cases hget : s.apps.get? a with
      | none => simpa [command, halg, getElem?_of_get? hget] using h
      | some app =>
        by_cases hwts : app.waiting.isSome = true
        · simpa [command, halg, getElem?_of_get? hget, hwts] using h
        · by_cases hcb : (app.callback.isSome && app.buffer.isSome) = true
          · have h1 : servingInFlight
                { s with apps := s.apps.set a { app with waiting := some al } } = true :=
              servingInFlight_set { app with waiting := some al }
                hget (fun _ => rfl) h
            have hcmd : (command hw v 2 alg a s).2.1 =
                (serve_waiting_apps hw
                  { s with apps := s.apps.set a { app with waiting := some al } }).1 := by
              simp [command, halg, getElem?_of_get? hget, hwts, hcb]
            rw [hcmd]
            exact servingInFlight_serve hw _ h1
          · simpa [command, halg, getElem?_of_get? hget, hwts, hcb] using h
  · simpa [command] using h

theorem servingInFlight_receive (hw : Nat → ReturnCode) (r : Nat) (s : CrcState)
    (h : servingInFlight s = true) :
    servingInFlight (receive_result hw r s).1 = true := by
  cases hs : s.serving_app with
  | none => simpa [receive_result, hs] using h
  | some c =>
    cases hget : s.apps.get? c with
    | none =>
      have heq : (receive_result hw r s).1 =
          (serve_waiting_apps hw { s with serving_app := none }).1 := by
        simp [receive_result, hs, getElem?_of_get? hget]
      rw [heq]
      exact servingInFlight_scan hw _ rfl
    | some app =>
      have heq : (receive_result hw r s).1 =
          (serve_waiting_apps hw
            { apps := s.apps.set c { app with waiting := none },
              serving_app := none }).1 := by
        simp [receive_result, hs, getElem?_of_get? hget]
      rw [heq]
      exact servingInFlight_scan hw _ rfl

theorem waitingReg_allow (a n sl : Nat) (s : CrcState)
    (h : waitingImpliesRegistered s = true) :
    waitingImpliesRegistered (allow a n sl s).2 = true := by
  cases n with
  | zero =>
    cases hget : s.apps.get? a with
    | none => simpa [allow, getElem?_of_get? hget] using h
    | some app =>
      have hset := waitingReg_set a { app with buffer := some sl }
        (fun hws => ⟨rfl, (waitingReg_get h hget hws).2⟩) h
      simpa [allow, getElem?_of_get? hget] using hset
  | succ m => simpa [allow] using h

theorem waitingReg_subscribe (n ca cb : Nat) (s : CrcState)
    (h : waitingImpliesRegistered s = true) :
    waitingImpliesRegistered (subscribe n ca cb s).2 = true := by
  cases n with
  | zero =>
    cases hget : s.apps.get? ca with
    | none => simpa [subscribe, getElem?_of_get? hget] using h
    | some app =>
      have hset := waitingReg_set ca { app with callback := some cb }
        (fun hws => ⟨(waitingReg_get h hget hws).1, rfl⟩) h
      simpa [subscribe, getElem?_of_get? hget] using hset
  | succ m => simpa [subscribe] using h

theorem waitingReg_command (hw : Nat → ReturnCode) (v n alg a : Nat)
    (s : CrcState) (h : waitingImpliesRegistered s = true) :
    waitingImpliesRegistered (command hw v n alg a s).2.1 = true := by
  rcases n with _ | _ | _ | m
  · simpa [command] using h
  · simpa [command] using h
  · cases halg : alg_from_user_int alg with
    | none => simpa [command, halg] using h
    | some al =>
      cases hget : s.apps.get? a with
      | none => simpa [command, halg, getElem?_of_get? hget] using h
      | some app =>
        by_cases hwts : app.waiting.isSome = true
        · simpa [command, halg, getElem?_of_get? hget, hwts] using h
        · by_cases hcb : (app.callback.isSome && app.buffer.isSome) = true
          · have hboth := Bool.and_eq_true_iff.mp hcb
            have h1 : waitingImpliesRegistered
                { s with apps := s.apps.set a { app with waiting := some al } } = true :=
              waitingReg_set a { app with waiting := some al }
                (fun _ => ⟨hboth.2, hboth.1⟩) h
            have hcmd : (command hw v 2 alg a s).2.1 =
                (serve_waiting_apps hw
                  { s with apps := s.apps.set a { app with waiting := some al } }).1 := by
              simp [command, halg, getElem?_of_get? hget, hwts, hcb]
            rw [hcmd]
            exact waitingReg_scan hw _ h1
          · simpa [command, halg, getElem?_of_get? hget, hwts, hcb] using h
  · simpa [command] using h

theorem waitingReg_receive (hw : Nat → ReturnCode) (r : Nat) (s : CrcState)
    (h : waitingImpliesRegistered s = true) :
    waitingImpliesRegistered (receive_result hw r s).1 = true := by
  cases hs : s.serving_app with
  | none => simpa [receive_result, hs] using h
  | some c =>
    cases hget : s.apps.get? c with
    | none =>
      have heq : (receive_result hw r s).1 =
          (serve_waiting_apps hw { s with serving_app := none }).1 := by
        simp [receive_result, hs, getElem?_of_get? hget]
      rw [heq]
      exact waitingReg_scan hw _ h
    | some app =>
      have heq : (receive_result hw r s).1 =
          (serve_waiting_apps hw
            { apps := s.apps.set c { app with waiting := none },
              serving_app := none }).1 := by
        simp [receive_result, hs, getElem?_of_get? hget]
      rw [heq]
      refine waitingReg_scan hw _ ?_
      exact waitingReg_set c { app with waiting := none }
        (fun hws => by simp at hws) h

theorem servingInFlight_applyOp (op : Op) (s : CrcState)
    (h : servingInFlight s = true) : servingInFlight (applyOp op s) = true := by
  cases op with
  | opAllow a n sl => exact servingInFlight_allow a n sl s h
  | opSubscribe n ca cb => exact servingInFlight_subscribe n ca cb s h
  | opCommand hw v n alg a => exact servingInFlight_command hw v n alg a s h
  | opReceive hw r => exact servingInFlight_receive hw r s h

theorem waitingReg_applyOp (op : Op) (s : CrcState)
    (h : waitingImpliesRegistered s = true) :
    waitingImpliesRegistered (applyOp op s) = true := by
  cases op with
  | opAllow a n sl => exact waitingReg_allow a n sl s h
  | opSubscribe n ca cb => exact waitingReg_subscribe n ca cb s h
  | opCommand hw v n alg a => exact waitingReg_command hw v n alg a s h
  | opReceive hw r => exact waitingReg_receive hw r s h

theorem servingInFlight_reachable (n : Nat) (s : CrcState)
    (h : Reachable n s) : servingInFlight s = true := by
  induction h with
  | init => rfl
  | step op hr ih => exact servingInFlight_applyOp op _ ih

theorem waitingReg_reachable (n : Nat) (s : CrcState)
    (h : Reachable n s) : waitingImpliesRegistered s = true := by
  induction h with
  | init =>
    simp only [initState, waitingImpliesRegistered, List.all_eq_true]
    intro a ha
    rw [List.eq_of_mem_replicate ha]
    rfl
  | step op hr ih => exact waitingReg_applyOp op _ ih

/-! ## Claims -/

/-- C7: a completion notification arriving while `serving_app` is `none` is
discarded silently: the state is unchanged and no event (no callback, no
disable, no compute) is produced. -/
theorem crc_C7 : ∀ (hw : Nat → ReturnCode) (v : Nat) (s : CrcState),
    s.serving_app = none → receive_result hw v s = (s, []) := by
  intro hw v s h
  simp [receive_result, h]

theorem crc_C7_witness :
    receive_result (fun _ => ReturnCode.SUCCESS) 55 (initState 2) =
      (initState 2, []) :=
  crc_C7 (fun _ => ReturnCode.SUCCESS) 55 (initState 2) rfl

/-- C8: for every client, the probe (command 0) returns the success
(presence) outcome with no state change and no hardware or callback
activity; the presence indicator the spec attaches to it is non-zero. -/
theorem crc_C8 : ∀ (hw : Nat → ReturnCode) (v alg appid : Nat) (s : CrcState),
    command hw v 0 alg appid s = (ReturnCode.SUCCESS, s, []) ∧
      presence_indicator ≠ 0 := by
  intro hw v alg appid s
  exact ⟨rfl, by decide⟩

/-- C4: a completion arriving while `serving_app = some c` schedules, when
the record lookup succeeds and a callback is registered, the callback with
`(SUCCESS, raw value, 0)`, clears the record's `waiting`, clears
`serving_app` to `none` (also when the lookup fails), and then re-runs the
dispatch scan on the resulting state. -/
theorem crc_C4 : ∀ (hw : Nat → ReturnCode) (v : Nat) (s : CrcState) (c : Nat),
    s.serving_app = some c →
    (∀ app, s.apps.get? c = some app →
      receive_result hw v s =
        ((serve_waiting_apps hw
            { apps := s.apps.set c { app with waiting := none },
              serving_app := none }).1,
         (match app.callback with
          | some _ => [Event.schedule c ReturnCode.SUCCESS v 0]
          | none => ([] : List Event)) ++
           (serve_waiting_apps hw
            { apps := s.apps.set c { app with waiting := none },
              serving_app := none }).2))
    ∧ (s.apps.get? c = none →
      receive_result hw v s =
        ((serve_waiting_apps hw { s with serving_app := none }).1,
         (serve_waiting_apps hw { s with serving_app := none }).2)) := by
  intro hw v s c hs
  constructor
  · intro app hget
    simp only [receive_result, hs, hget]
  · intro hget
    simp only [receive_result, hs, hget, List.nil_append]

theorem crc_C4_witness :
    receive_result (fun _ => ReturnCode.FAIL) 3735928559
        { apps := [{ callback := some 7, buffer := some 5,
                     waiting := some CrcAlg.Crc32 }],
          serving_app := some 0 } =
      ((serve_waiting_apps (fun _ => ReturnCode.FAIL)
          { apps := [{ callback := some 7, buffer := some 5,
                       waiting := some CrcAlg.Crc32 }].set 0
              { callback := some 7, buffer := some 5, waiting := none },
            serving_app := none }).1,
       [Event.schedule 0 ReturnCode.SUCCESS 3735928559 0] ++
         (serve_waiting_apps (fun _ => ReturnCode.FAIL)
          { apps := [{ callback := some 7, buffer := some 5,
                       waiting := some CrcAlg.Crc32 }].set 0
              { callback := some 7, buffer := some 5, waiting := none },
            serving_app := none }).2) :=
  (crc_C4 (fun _ => ReturnCode.FAIL) 3735928559
    { apps := [{ callback := some 7, buffer := some 5,
                 waiting := some CrcAlg.Crc32 }],
      serving_app := some 0 } 0 rfl).1
    { callback := some 7, buffer := some 5, waiting := some CrcAlg.Crc32 } rfl

/-- C3: the dispatch scan is a no-op when `serving_app` is already `some`;
otherwise, when it sets a server `j`, `j` is the first record in store
order with a pending request and a buffer whose start the hardware accepts,
record `j` is left intact (buffer restored), scanning stops (all later
records untouched); and when no operation is started, the hardware is
disabled. -/
theorem crc_C3 : ∀ (hw : Nat → ReturnCode) (s : CrcState),
    (s.serving_app.isSome = true → serve_waiting_apps hw s = (s, []))
    ∧ (s.serving_app = none →
        (∀ j, (serve_waiting_apps hw s).1.serving_app = some j →
          firstAccept hw 0 s.apps = some j ∧
          (serve_waiting_apps hw s).1.apps.get? j = s.apps.get? j ∧
          (∀ k, j < k →
            (serve_waiting_apps hw s).1.apps.get? k = s.apps.get? k))
        ∧ ((serve_waiting_apps hw s).1.serving_app = none →
            Event.disable ∈ (serve_waiting_apps hw s).2)) := by
  intro hw s
  constructor
  · exact serve_noop hw s
  · intro h
    constructor
    · intro j hj
      have hfa : firstAccept hw 0 s.apps = some j := by
        rw [← serve_serving_eq hw s h]
        exact hj
      have hfa' : firstAccept hw 0 s.apps = some (0 + j) := by
        rw [Nat.zero_add]
        exact hfa
      refine ⟨hfa, ?_, ?_⟩
      · rw [serve_apps_eq hw s h]
        exact serveLoop_apps_of_le hw 0 j s.apps hfa' j (Nat.le_refl j)
      · intro k hk
        rw [serve_apps_eq hw s h]
        exact serveLoop_apps_of_le hw 0 j s.apps hfa' k (Nat.le_of_lt hk)
    · exact serve_disable hw s h

theorem crc_C3_witness :
    serve_waiting_apps (fun _ => ReturnCode.SUCCESS)
        { apps := [{ callback := some 7, buffer := some 5,
                     waiting := some CrcAlg.Crc32 }],
          serving_app := some 0 } =
      ({ apps := [{ callback := some 7, buffer := some 5,
                    waiting := some CrcAlg.Crc32 }],
         serving_app := some 0 }, [])
    ∧ firstAccept (fun _ => ReturnCode.SUCCESS) 0
        [{ callback := some 7, buffer := some 5,
           waiting := some CrcAlg.Crc32 }] = some 0
    ∧ Event.disable ∈ (serve_waiting_apps (fun _ => ReturnCode.FAIL)
        { apps := [{ callback := some 7, buffer := some 5,
                     waiting := some CrcAlg.Crc32 }],
          serving_app := none }).2 :=
  ⟨(crc_C3 (fun _ => ReturnCode.SUCCESS)
      { apps := [{ callback := some 7, buffer := some 5,
                   waiting := some CrcAlg.Crc32 }],
        serving_app := some 0 }).1 rfl,
   (((crc_C3 (fun _ => ReturnCode.SUCCESS)
      { apps := [{ callback := some 7, buffer := some 5,
                   waiting := some CrcAlg.Crc32 }],
        serving_app := none }).2 rfl).1 0 (by decide)).1,
   ((crc_C3 (fun _ => ReturnCode.FAIL)
      { apps := [{ callback := some 7, buffer := some 5,
                   waiting := some CrcAlg.Crc32 }],
        serving_app := none }).2 rfl).2 (by decide)⟩

/-- C2: for every algorithm selector 0–4 and every client whose record
lookup succeeds, command 2 returns SUCCESS iff the client has a registered
callback and buffer and no outstanding request; on success the record's
`waiting` becomes `some` of the mapped algorithm and the dispatch scan is
run on the updated state; a pending request yields EBUSY and a missing
callback or buffer yields EINVAL. -/
theorem crc_C2 : ∀ (hw : Nat → ReturnCode) (v sel appid : Nat) (s : CrcState)
    (app : App), sel ≤ 4 → s.apps.get? appid = some app →
    ((command hw v 2 sel appid s).1 = ReturnCode.SUCCESS ↔
      (app.callback.isSome = true ∧ app.buffer.isSome = true ∧
        app.waiting = none))
    ∧ (∀ alg, alg_from_user_int sel = some alg →
        (command hw v 2 sel appid s).1 = ReturnCode.SUCCESS →
        (command hw v 2 sel appid s).2 =
          serve_waiting_apps hw
            { s with apps := s.apps.set appid { app with waiting := some alg } })
    ∧ (app.waiting.isSome = true →
        (command hw v 2 sel appid s).1 = ReturnCode.EBUSY)
    ∧ (app.waiting = none →
        ¬(app.callback.isSome = true ∧ app.buffer.isSome = true) →
        (command hw v 2 sel appid s).1 = ReturnCode.EINVAL) := by
  intro hw v sel appid s app hsel hget
  obtain ⟨alg, halg⟩ : ∃ alg, alg_from_user_int sel = some alg := by
    interval_cases sel <;> exact ⟨_, rfl⟩
  refine ⟨?_, ?_, ?_, ?_⟩
  · rcases hwait : app.waiting with _ | al
    · by_cases hc : app.callback.isSome = true
      · by_cases hb : app.buffer.isSome = true
        · simp [command, halg, getElem?_of_get? hget, hwait, hc, hb]
        · simp [command, halg, getElem?_of_get? hget, hwait, hc, hb]
      · simp [command, halg, getElem?_of_get? hget, hwait, hc]
    · simp [command, halg, getElem?_of_get? hget, hwait]
  · intro alg' halg' hsucc
    obtain rfl : alg = alg' := by
      rw [halg] at halg'
      exact Option.some.inj halg'
    rcases hwait : app.waiting with _ | al
    · by_cases hcb : (app.callback.isSome && app.buffer.isSome) = true
      · simp [command, halg, getElem?_of_get? hget, hwait, hcb]
      · exfalso
        simp [command, halg, getElem?_of_get? hget, hwait, hcb] at hsucc
    · exfalso
      simp [command, halg, getElem?_of_get? hget, hwait] at hsucc
  · intro hwait
    simp [command, halg, getElem?_of_get? hget, hwait]
  · intro hwait hnc
    have hcb : (app.callback.isSome && app.buffer.isSome) = false := by
      cases hc : app.callback.isSome <;> cases hb : app.buffer.isSome <;>
        simp_all
    simp [command, halg, getElem?_of_get? hget, hwait, hcb]

theorem crc_C2_witness :
    ((command (fun _ => ReturnCode.SUCCESS) 0 2 0 0
        { apps := [{ callback := some 7, buffer := some 5, waiting := none }],
          serving_app := none }).1 = ReturnCode.SUCCESS ↔
      (({ callback := some 7, buffer := some 5,
          waiting := none } : App).callback.isSome = true ∧
        ({ callback := some 7, buffer := some 5,
           waiting := none } : App).buffer.isSome = true ∧
        ({ callback := some 7, buffer := some 5,
           waiting := none } : App).waiting = none))
    ∧ (command (fun _ => ReturnCode.SUCCESS) 0 2 0 0
        { apps := [{ callback := some 7, buffer := some 5, waiting := none }],
          serving_app := none }).2 =
        serve_waiting_apps (fun _ => ReturnCode.SUCCESS)
          { apps := [{ callback := some 7, buffer := some 5,
                       waiting := none }].set 0
              { callback := some 7, buffer := some 5,
                waiting := some CrcAlg.Crc32 },
            serving_app := none } :=
  ⟨(crc_C2 (fun _ => ReturnCode.SUCCESS) 0 0 0
      { apps := [{ callback := some 7, buffer := some 5, waiting := none }],
        serving_app := none }
      { callback := some 7, buffer := some 5, waiting := none }
      (by decide) rfl).1,
   (crc_C2 (fun _ => ReturnCode.SUCCESS) 0 0 0
      { apps := [{ callback := some 7, buffer := some 5, waiting := none }],
        serving_app := none }
      { callback := some 7, buffer := some 5, waiting := none }
      (by decide) rfl).2.1 CrcAlg.Crc32 rfl (by decide)⟩

/-- C6: submission preconditions are checked in the fixed order —
unrecognized selector (EINVAL, before anything else), then an outstanding
request (EBUSY, even if callback or buffer is missing), then missing
callback or buffer (EINVAL) — and every failing submission returns its
error with the state unchanged and no events (atomic accept-or-reject). -/
theorem crc_C6 : ∀ (hw : Nat → ReturnCode) (v sel appid : Nat) (s : CrcState),
    (alg_from_user_int sel = none →
      command hw v 2 sel appid s = (ReturnCode.EINVAL, s, []))
    ∧ (∀ alg app, alg_from_user_int sel = some alg →
        s.apps.get? appid = some app → app.waiting.isSome = true →
        command hw v 2 sel appid s = (ReturnCode.EBUSY, s, []))
    ∧ (∀ alg app, alg_from_user_int sel = some alg →
        s.apps.get? appid = some app → app.waiting = none →
        (app.callback.isSome && app.buffer.isSome) = false →
        command hw v 2 sel appid s = (ReturnCode.EINVAL, s, []))
    ∧ (∀ rc s2 evs, command hw v 2 sel appid s = (rc, s2, evs) →
        rc ≠ ReturnCode.SUCCESS → s2 = s ∧ evs = []) := by
  intro hw v sel appid s
  refine ⟨?_, ?_, ?_, ?_⟩
  · intro halg
    simp [command, halg]
  · intro alg app halg hget hwait
    simp [command, halg, getElem?_of_get? hget, hwait]
  · intro alg app halg hget hwait hcb
    simp [command, halg, getElem?_of_get? hget, hwait, hcb]
  · intro rc s2 evs heq hne
    rcases halg : alg_from_user_int sel with _ | alg
    · rw [show command hw v 2 sel appid s = (ReturnCode.EINVAL, s, []) by
        simp [command, halg]] at heq
      injection heq with h1 h23
      injection h23 with h2 h3
      exact ⟨h2.symm, h3.symm⟩
    · rcases hget : s.apps.get? appid with _ | app
      · rw [show command hw v 2 sel appid s = (ReturnCode.EINVAL, s, []) by
          simp [command, halg, getElem?_of_get? hget]] at heq
        injection heq with h1 h23
        injection h23 with h2 h3
        exact ⟨h2.symm, h3.symm⟩
      · by_cases hwait : app.waiting.isSome = true
        · rw [show command hw v 2 sel appid s = (ReturnCode.EBUSY, s, []) by
            simp [command, halg, getElem?_of_get? hget, hwait]] at heq
          injection heq with h1 h23
          injection h23 with h2 h3
          exact ⟨h2.symm, h3.symm⟩
        · by_cases hcb : (app.callback.isSome && app.buffer.isSome) = true
          · exfalso
            have h1 : (command hw v 2 sel appid s).1 = ReturnCode.SUCCESS := by
              simp [command, halg, getElem?_of_get? hget, hwait, hcb]
            rw [heq] at h1
            exact hne h1
          · rw [show command hw v 2 sel appid s = (ReturnCode.EINVAL, s, []) by
              simp [command, halg, getElem?_of_get? hget, hwait, hcb]] at heq
            injection heq with h1 h23
            injection h23 with h2 h3
            exact ⟨h2.symm, h3.symm⟩

theorem crc_C6_witness :
    command (fun _ => ReturnCode.SUCCESS) 0 2 7 0
        { apps := [{ callback := some 7, buffer := some 5, waiting := none }],
          serving_app := none } =
      (ReturnCode.EINVAL,
       { apps := [{ callback := some 7, buffer := some 5, waiting := none }],
         serving_app := none }, [])
    ∧ command (fun _ => ReturnCode.SUCCESS) 0 2 0 0
        { apps := [{ callback := none, buffer := none,
                     waiting := some CrcAlg.Crc32 }],
          serving_app := none } =
      (ReturnCode.EBUSY,
       { apps := [{ callback := none, buffer := none,
                    waiting := some CrcAlg.Crc32 }],
         serving_app := none }, [])
    ∧ command (fun _ => ReturnCode.SUCCESS) 0 2 0 0
        { apps := [{ callback := some 7, buffer := none, waiting := none }],
          serving_app := none } =
      (ReturnCode.EINVAL,
       { apps := [{ callback := some 7, buffer := none, waiting := none }],
         serving_app := none }, []) :=
  ⟨(crc_C6 (fun _ => ReturnCode.SUCCESS) 0 7 0
      { apps := [{ callback := some 7, buffer := some 5, waiting := none }],
        serving_app := none }).1 rfl,
   (crc_C6 (fun _ => ReturnCode.SUCCESS) 0 0 0
      { apps := [{ callback := none, buffer := none,
                   waiting := some CrcAlg.Crc32 }],
        serving_app := none }).2.1 CrcAlg.Crc32
      { callback := none, buffer := none, waiting := some CrcAlg.Crc32 }
      rfl rfl rfl,
   (crc_C6 (fun _ => ReturnCode.SUCCESS) 0 0 0
      { apps := [{ callback := some 7, buffer := none, waiting := none }],
        serving_app := none }).2.2.1 CrcAlg.Crc32
      { callback := some 7, buffer := none, waiting := none }
      rfl rfl rfl rfl⟩

/-- C5: if the hardware rejects the start for eligible client `x` during a
scan, `x` gets an immediate failure callback (when registered), its
`waiting` is cleared with its buffer restored, and the scan still starts
the request of an eligible client `y` later in store order (the first one
the hardware accepts). -/
theorem crc_C5 : ∀ (hw : Nat → ReturnCode) (s : CrcState) (x y : Nat)
    (ax ay : App),
    s.serving_app = none →
    s.apps.get? x = some ax → eligible ax = true →
    hw x ≠ ReturnCode.SUCCESS →
    s.apps.get? y = some ay → eligible ay = true →
    hw y = ReturnCode.SUCCESS → x < y →
    (∀ m, m < y → ∀ b, s.apps.get? m = some b → eligible b = true →
        hw m ≠ ReturnCode.SUCCESS) →
    (serve_waiting_apps hw s).1.serving_app = some y
    ∧ (serve_waiting_apps hw s).1.apps.get? x =
        some { ax with waiting := none }
    ∧ (ax.callback.isSome = true →
        Event.schedule x (hw x) 0 0 ∈ (serve_waiting_apps hw s).2) := by
  intro hw s x y ax ay hserv hgx helx hrejx hgy hely haccy hxy hprev
  have hfa : firstAccept hw 0 s.apps = some (0 + y) :=
    firstAccept_eq_of hw 0 y ay s.apps hgy hely
      (by rw [Nat.zero_add]; exact haccy)
      (by intro m hm b hb helb; rw [Nat.zero_add]; exact hprev m hm b hb helb)
  rw [Nat.zero_add] at hfa
  have hrej := serveLoop_rejected hw 0 s.apps x ax hgx helx
    (by rw [Nat.zero_add]; exact hrejx)
    (by intro m hm b hb helb
        rw [Nat.zero_add]
        exact hprev m (by omega) b hb helb)
  simp only [Nat.zero_add] at hrej
  refine ⟨?_, ?_, ?_⟩
  · rw [serve_serving_eq hw s hserv]
    exact hfa
  · rw [serve_apps_eq hw s hserv]
    exact hrej.1
  · intro hcb
    exact serve_events_mem hw s hserv _ (hrej.2.2 hcb)

theorem crc_C5_witness :
    (serve_waiting_apps (fun j => if j = 0 then ReturnCode.EBUSY
          else ReturnCode.SUCCESS)
        { apps := [{ callback := some 7, buffer := some 5,
                     waiting := some CrcAlg.Crc32 },
                   { callback := some 8, buffer := some 6,
                     waiting := some CrcAlg.Crc32C }],
          serving_app := none }).1.serving_app = some 1
    ∧ (serve_waiting_apps (fun j => if j = 0 then ReturnCode.EBUSY
          else ReturnCode.SUCCESS)
        { apps := [{ callback := some 7, buffer := some 5,
                     waiting := some CrcAlg.Crc32 },
                   { callback := some 8, buffer := some 6,
                     waiting := some CrcAlg.Crc32C }],
          serving_app := none }).1.apps.get? 0 =
        some { callback := some 7, buffer := some 5, waiting := none }
    ∧ Event.schedule 0
        ((fun j => if j = 0 then ReturnCode.EBUSY else ReturnCode.SUCCESS) 0)
        0 0 ∈
        (serve_waiting_apps (fun j => if j = 0 then ReturnCode.EBUSY
            else ReturnCode.SUCCESS)
          { apps := [{ callback := some 7, buffer := some 5,
                       waiting := some CrcAlg.Crc32 },
                     { callback := some 8, buffer := some 6,
                       waiting := some CrcAlg.Crc32C }],
            serving_app := none }).2 := by
  have h := crc_C5 (fun j => if j = 0 then ReturnCode.EBUSY
      else ReturnCode.SUCCESS)
    { apps := [{ callback := some 7, buffer := some 5,
                 waiting := some CrcAlg.Crc32 },
               { callback := some 8, buffer := some 6,
                 waiting := some CrcAlg.Crc32C }],
      serving_app := none } 0 1
    { callback := some 7, buffer := some 5, waiting := some CrcAlg.Crc32 }
    { callback := some 8, buffer := some 6, waiting := some CrcAlg.Crc32C }
    rfl rfl rfl (by decide) rfl rfl (by decide) (by decide)
    (by intro m hm b hb helb
        interval_cases m
        decide)
  exact ⟨h.1, h.2.1, h.2.2 rfl⟩

/-- C10: a valid submission made while the hardware is idle still returns
SUCCESS even when the hardware rejects the start during the scan the
submission triggers; the rejection surfaces only as a failure callback
event, and afterwards the client's record is back to its pre-submission
value (in particular `waiting = none`, so it may submit again). -/
theorem crc_C10 : ∀ (hw : Nat → ReturnCode) (v sel c : Nat) (s : CrcState)
    (app : App),
    s.serving_app = none → sel ≤ 4 →
    s.apps.get? c = some app →
    app.callback.isSome = true → app.buffer.isSome = true →
    app.waiting = none →
    (∀ j, hw j ≠ ReturnCode.SUCCESS) →
    (command hw v 2 sel c s).1 = ReturnCode.SUCCESS
    ∧ Event.schedule c (hw c) 0 0 ∈ (command hw v 2 sel c s).2.2
    ∧ (command hw v 2 sel c s).2.1.apps.get? c = some app := by
  intro hw v sel c s app hserv hsel hget hcb hbuf hwait hall
  obtain ⟨alg, halg⟩ : ∃ alg, alg_from_user_int sel = some alg := by
    interval_cases sel <;> exact ⟨_, rfl⟩
  have hwn : app.waiting.isSome = false := by rw [hwait]; rfl
  have hcb2 : (app.callback.isSome && app.buffer.isSome) = true := by
    rw [hcb, hbuf]; rfl
  have hcmd : (command hw v 2 sel c s).2 =
      serve_waiting_apps hw
        { s with apps := s.apps.set c { app with waiting := some alg } } := by
    simp [command, halg, getElem?_of_get? hget, hwn, hcb2]
  have hcmd1 : (command hw v 2 sel c s).1 = ReturnCode.SUCCESS := by
    simp [command, halg, getElem?_of_get? hget, hwn, hcb2]
  have hlen : c < s.apps.length := by
    by_contra hge
    rw [List.get?_eq_none.mpr (by omega)] at hget
    exact Option.noConfusion hget
  have hg1 : ({ s with
      apps := s.apps.set c { app with waiting := some alg } }).apps.get? c =
      some { app with waiting := some alg } :=
    List.get?_set_eq_of_lt _ hlen
  have hel1 : eligible { app with waiting := some alg } = true := by
    simp [eligible, hbuf]
  have hrej := serveLoop_rejected hw 0
    ({ s with apps := s.apps.set c { app with waiting := some alg } }).apps c
    { app with waiting := some alg } hg1 hel1
    (by rw [Nat.zero_add]; exact hall c)
    (by intro m _ b _ _
        rw [Nat.zero_add]
        exact hall m)
  simp only [Nat.zero_add] at hrej
  have hserv1 : ({ s with
      apps := s.apps.set c { app with waiting := some alg } }).serving_app =
      none := hserv
  refine ⟨hcmd1, ?_, ?_⟩
  · rw [hcmd]
    exact serve_events_mem hw _ hserv1 _ (hrej.2.2 hcb)
  · rw [hcmd, serve_apps_eq hw _ hserv1, hrej.1]
    obtain ⟨acb, abuf, aw⟩ := app
    have haw : aw = none := hwait
    rw [haw]

theorem crc_C10_witness :
    (command (fun _ => ReturnCode.EBUSY) 0 2 0 0
        { apps := [{ callback := some 7, buffer := some 5, waiting := none }],
          serving_app := none }).1 = ReturnCode.SUCCESS
    ∧ Event.schedule 0 ((fun _ => ReturnCode.EBUSY) 0) 0 0 ∈
        (command (fun _ => ReturnCode.EBUSY) 0 2 0 0
          { apps := [{ callback := some 7, buffer := some 5,
                       waiting := none }],
            serving_app := none }).2.2
    ∧ (command (fun _ => ReturnCode.EBUSY) 0 2 0 0
        { apps := [{ callback := some 7, buffer := some 5, waiting := none }],
          serving_app := none }).2.1.apps.get? 0 =
        some { callback := some 7, buffer := some 5, waiting := none } :=
  crc_C10 (fun _ => ReturnCode.EBUSY) 0 0 0
    { apps := [{ callback := some 7, buffer := some 5, waiting := none }],
      serving_app := none }
    { callback := some 7, buffer := some 5, waiting := none }
    rfl (by decide) rfl rfl rfl rfl
    (fun j h => ReturnCode.noConfusion h)

/-- C1: in every reachable state, `serving_app = some c` implies the
(unique) record of `c` exists and has the in-flight request; one
scan invocation issues at most one accepted hardware start, and any newly
set server was accepted by the hardware; and `receive_result` clears
`serving_app` before re-running the dispatch scan. -/
theorem crc_C1 :
    (∀ (n : Nat) (s : CrcState), Reachable n s →
      servingInFlight s = true
      ∧ ∀ c cp, s.serving_app = some c → s.serving_app = some cp → c = cp)
    ∧ (∀ (hw : Nat → ReturnCode) (s : CrcState),
        ((serve_waiting_apps hw s).2.filter (isAcceptedCompute hw)).length ≤ 1
        ∧ (∀ j, s.serving_app = none →
            (serve_waiting_apps hw s).1.serving_app = some j →
            hw j = ReturnCode.SUCCESS))
    ∧ (∀ (hw : Nat → ReturnCode) (v : Nat) (s : CrcState) (c : Nat),
        s.serving_app = some c →
        (receive_result hw v s).1 =
          (serve_waiting_apps hw
            { apps := match s.apps.get? c with
                      | some app => s.apps.set c { app with waiting := none }
                      | none => s.apps,
              serving_app := none }).1) := by
  refine ⟨?_, ?_, ?_⟩
  · intro n s h
    refine ⟨servingInFlight_reachable n s h, ?_⟩
    intro c cp h1 h2
    exact Option.some.inj (h1.symm.trans h2)
  · intro hw s
    exact ⟨serve_accepted_le_one hw s,
      fun j h hj => serve_new_server_accepted hw s j h hj⟩
  · intro hw v s c hs
    cases hget : s.apps.get? c with
    | none => simp only [receive_result, hs, hget]
    | some app => simp only [receive_result, hs, hget]

theorem crc_C1_witness :
    servingInFlight
        (applyOp (Op.opCommand (fun _ => ReturnCode.SUCCESS) 0 2 0 0)
          (applyOp (Op.opSubscribe 0 0 7)
            (applyOp (Op.opAllow 0 0 5) (initState 1)))) = true
    ∧ ((serve_waiting_apps (fun _ => ReturnCode.SUCCESS)
          { apps := [{ callback := some 7, buffer := some 5,
                       waiting := some CrcAlg.Crc32 }],
            serving_app := none }).2.filter
          (isAcceptedCompute (fun _ => ReturnCode.SUCCESS))).length ≤ 1
    ∧ (fun _ => ReturnCode.SUCCESS) 0 = ReturnCode.SUCCESS
    ∧ (receive_result (fun _ => ReturnCode.FAIL) 3
          { apps := [{ callback := some 7, buffer := some 5,
                       waiting := some CrcAlg.Crc32 }],
            serving_app := some 0 }).1 =
        (serve_waiting_apps (fun _ => ReturnCode.FAIL)
          { apps := [{ callback := some 7, buffer := some 5,
                       waiting := some CrcAlg.Crc32 }].set 0
              { callback := some 7, buffer := some 5, waiting := none },
            serving_app := none }).1 :=
  ⟨(crc_C1.1 1 _
      (Reachable.step (Op.opCommand (fun _ => ReturnCode.SUCCESS) 0 2 0 0)
        (Reachable.step (Op.opSubscribe 0 0 7)
          (Reachable.step (Op.opAllow 0 0 5) Reachable.init)))).1,
   (crc_C1.2.1 (fun _ => ReturnCode.SUCCESS)
      { apps := [{ callback := some 7, buffer := some 5,
                   waiting := some CrcAlg.Crc32 }],
        serving_app := none }).1,
   (crc_C1.2.1 (fun _ => ReturnCode.SUCCESS)
      { apps := [{ callback := some 7, buffer := some 5,
                   waiting := some CrcAlg.Crc32 }],
        serving_app := none }).2 0 rfl (by decide),
   crc_C1.2.2 (fun _ => ReturnCode.FAIL) 3
      { apps := [{ callback := some 7, buffer := some 5,
                   waiting := some CrcAlg.Crc32 }],
        serving_app := some 0 } 0 rfl⟩

/-- C9: in every state reachable through the public interface from the
initial record store, every record with an outstanding request
(`waiting = some`) also has a buffer and a callback registered. -/
theorem crc_C9 : ∀ (n : Nat) (s : CrcState), Reachable n s →
    ∀ a ∈ s.apps, a.waiting.isSome = true →
      a.buffer.isSome = true ∧ a.callback.isSome = true := by
  intro n s h a ha hwts
  have hall := List.all_eq_true.mp (waitingReg_reachable n s h) a ha
  rw [hwts] at hall
  simpa using hall

theorem crc_C9_witness :
    ({ callback := some 7, buffer := some 5,
       waiting := some CrcAlg.Crc32 } : App).buffer.isSome = true
    ∧ ({ callback := some 7, buffer := some 5,
         waiting := some CrcAlg.Crc32 } : App).callback.isSome = true :=
  crc_C9 1 _
    (Reachable.step (Op.opCommand (fun _ => ReturnCode.SUCCESS) 0 2 0 0)
      (Reachable.step (Op.opSubscribe 0 0 7)
        (Reachable.step (Op.opAllow 0 0 5) Reachable.init)))
    { callback := some 7, buffer := some 5, waiting := some CrcAlg.Crc32 }
    (by decide) rfl

end CrcCapsule
